import Mathlib

/-!
Verification development for the Zeek-log query tool
(`zeek-log-query.py`).  The script discovers Zeek log headers, groups the
files by logical log type and schema signature, registers one DuckDB view
per log type as a `UNION ALL BY NAME` of per-schema scans whose SELECT
lists decode the raw tab-separated text, and finally re-encodes the
engine's result values back into Zeek textual conventions while streaming
the rows of the user's query.

The definitions below are a shallow embedding of that pipeline.  Pure
Python string manipulation is modelled on `List Char` / `String`; the
semantics of the DuckDB expressions generated by the script (`TRIM`,
`REPLACE`, `string_split`, `list_transform`, `TRY_CAST ... AS INET`,
`UNION ALL BY NAME`, the CSV reader's `nullstr`/`skip`/`ignore_errors`
options) and of the Python `ipaddress` library are modelled by explicit
executable functions, each marked by a comment naming what it models.
-/

set_option maxHeartbeats 1000000

namespace ZeekLogQuery

/-! ## Character and string utilities -/

/-- Characters treated as whitespace by Python `str.strip`. -/
def pyWhitespace (c : Char) : Bool :=
  c = ' ' || c = '\t' || c = '\n' || c = '\r' || c = Char.ofNat 11 || c = Char.ofNat 12

/-- Model of Python `str.strip` on the character list of a line. -/
def pyStripChars (l : List Char) : List Char :=
  ((l.dropWhile pyWhitespace).reverse.dropWhile pyWhitespace).reverse

/-- Model of Python `str.strip`. -/
def pyStrip (s : String) : String := String.mk (pyStripChars s.data)

/-- Split a character list at every occurrence of a one-character
separator.  Models Python `str.split` with a one-character separator and
DuckDB `string_split` with a one-character delimiter. -/
def charSplit (sep : Char) : List Char → List (List Char)
  | [] => [[]]
  | c :: rest =>
    if c = sep then [] :: charSplit sep rest
    else
      match charSplit sep rest with
      | [] => [[c]]
      | r :: rs => (c :: r) :: rs

/-- String wrapper for `charSplit`. -/
def splitOnChar (sep : Char) (s : String) : List String :=
  (charSplit sep s.data).map String.mk

/-- Join character lists with a separator list.  Models Python
`sep.join(...)`. -/
def joinChars (sep : List Char) : List (List Char) → List Char
  | [] => []
  | [x] => x
  | x :: y :: t => x ++ sep ++ joinChars sep (y :: t)

/-- Model of Python `sep.join(strings)`. -/
def pyJoin (sep : String) (xs : List String) : String :=
  String.mk (joinChars sep.data (xs.map String.data))

/-- Boolean prefix test on character lists. -/
def prefixTest : List Char → List Char → Bool
  | [], _ => true
  | _ :: _, [] => false
  | a :: as, b :: bs => a = b && prefixTest as bs

/-- Model of Python `s.startswith(pre)`. -/
def pyStartswith (pre s : String) : Bool := prefixTest pre.data s.data

/-! ## Header scanner (`get_log_metadata`, lines 24-42)

The script reads at most 15 lines.  A `#path` line stores the second
tab-separated token of the stripped line (an `IndexError` on a missing
token is caught by the surrounding `try` and yields the no-metadata
result).  A `#fields` / `#types` line stores the tail of the tokens.
Only in the `#types` branch does the function test
`if log_path and fields and types: return ...` (Python truthiness:
`None`, the empty string and the empty list are falsy); if the loop ends
without that return the function falls through to `return None, None,
None`. -/

/-- Extracted header metadata: `#path` name, `#fields` payload, `#types`
payload. -/
abbrev HeaderMetadata := String × List String × List String

/-- One step of `get_log_metadata`'s scan loop.  The first argument is the
remaining line budget; an empty list models `readline` returning the empty
string (end of stream), which breaks the loop. -/
def metadataLoop : Nat → List String → Option String → List String → List String →
    Option HeaderMetadata
  | 0, _, _, _, _ => none
  | _ + 1, [], _, _, _ => none
  | n + 1, line :: rest, logPath, fields, types =>
    if pyStartswith "#path" line then
      match (splitOnChar '\t' (pyStrip line))[1]? with
      | none => none
      | some p => metadataLoop n rest (some p) fields types
    else if pyStartswith "#fields" line then
      metadataLoop n rest logPath ((splitOnChar '\t' (pyStrip line)).drop 1) types
    else if pyStartswith "#types" line then
      let types2 := (splitOnChar '\t' (pyStrip line)).drop 1
      match logPath with
      | some p =>
        if p ≠ "" ∧ fields ≠ [] ∧ types2 ≠ [] then some (p, fields, types2)
        else metadataLoop n rest logPath fields types2
      | none => metadataLoop n rest logPath fields types2
    else metadataLoop n rest logPath fields types

/-- Model of `get_log_metadata` on the line stream of one file. -/
def get_log_metadata (lines : List String) : Option HeaderMetadata :=
  metadataLoop 15 lines none [] []

/-! ## Schema grouper (lines 81-95) -/

/-- One schema variant of a logical log type: field names, type tokens and
the source files carrying that exact field signature. -/
structure SchemaVariant where
  fields : List String
  types : List String
  files : List String
deriving Repr, DecidableEq

/-- Insert one file into the per-log-type variant map (a Python dict in
insertion order, keyed by the `"|".join(fields)` signature).  A fresh key
creates a variant with this file's `fields` and `types`; an existing key
keeps the first-seen `fields`/`types` and appends the file. -/
def addToVariants (variants : List (String × SchemaVariant)) (key fname : String)
    (fields types : List String) : List (String × SchemaVariant) :=
  match variants with
  | [] => [(key, ⟨fields, types, [fname]⟩)]
  | (k, v) :: rest =>
    if k = key then (k, ⟨v.fields, v.types, v.files ++ [fname]⟩) :: rest
    else (k, v) :: addToVariants rest key fname fields types

/-- Insert one file into `log_collections` (outer dict keyed by the
`#path` logical type name, insertion order). -/
def addToCollections (cols : List (String × List (String × SchemaVariant)))
    (fname logPath : String) (fields types : List String) :
    List (String × List (String × SchemaVariant)) :=
  match cols with
  | [] => [(logPath, addToVariants [] (pyJoin "|" fields) fname fields types)]
  | (t, vs) :: rest =>
    if t = logPath then (t, addToVariants vs (pyJoin "|" fields) fname fields types) :: rest
    else (t, vs) :: addToCollections rest fname logPath fields types

/-- One iteration of the grouping loop (lines 84-95): a file whose
metadata is absent, or any of whose metadata components is falsy, is
skipped (`if not all([l_path, f_list, t_list]): continue`). -/
def collectFile (cols : List (String × List (String × SchemaVariant)))
    (entry : String × Option HeaderMetadata) :
    List (String × List (String × SchemaVariant)) :=
  match entry.2 with
  | none => cols
  | some (p, fs, ts) =>
    if p = "" ∨ fs = [] ∨ ts = [] then cols
    else addToCollections cols entry.1 p fs ts

/-- Model of the `log_collections` accumulation over the sorted file
list, each paired with its scanned metadata. -/
def log_collections (files : List (String × Option HeaderMetadata)) :
    List (String × List (String × SchemaVariant)) :=
  files.foldl collectFile []

/-! ## Type and container coercion planner (lines 112-164)

`type_map` is the literal dictionary of the script; `planColumn` is the
branch structure of the per-field loop: `db_type == 'INET'` first, then
the `vector[`/`set[` container test (a plain `startswith`, so a nested
container token such as `vector[vector[string]]` also takes the container
branch, its element token `t[7:-1]` then falling through `type_map.get`
to `'VARCHAR'`), otherwise the mapped type is used directly. -/

/-- The `type_map` dictionary (lines 112-132); `none` models a key that is
absent, resolved to `'VARCHAR'` by `type_map.get(t, 'VARCHAR')`. -/
def type_map (t : String) : Option String :=
  if t = "time" then some "DOUBLE"
  else if t = "interval" then some "DOUBLE"
  else if t = "count" then some "BIGINT"
  else if t = "int" then some "BIGINT"
  else if t = "double" then some "DOUBLE"
  else if t = "addr" then some "INET"
  else if t = "subnet" then some "INET"
  else if t = "port" then some "BIGINT"
  else if t = "bool" then some "BOOLEAN"
  else none

/-- The coercion decision for one declared Zeek type token: the scalar
INET branch, the container branch (with its bracket pair and element
database type), or the direct mapped type. -/
inductive ColPlan where
  | inetCol : ColPlan
  | containerCol (bracketOpen bracketClose : Char) (elemDbType : String) : ColPlan
  | plainCol (dbType : String) : ColPlan
deriving Repr, DecidableEq

/-- Model of the per-field branch of the view-building loop
(lines 141-218), restricted to the coercion decision. -/
def planColumn (t : String) : ColPlan :=
  let db_type := (type_map t).getD "VARCHAR"
  let is_vector := pyStartswith "vector[" t
  let is_set := pyStartswith "set[" t
  if db_type = "INET" then .inetCol
  else if is_vector || is_set then
    let elem_type :=
      if is_vector then String.mk ((t.data.drop 7).dropLast)
      else String.mk ((t.data.drop 4).dropLast)
    let elem_db_type := (type_map elem_type).getD "VARCHAR"
    if is_vector then .containerCol '[' ']' elem_db_type
    else .containerCol (Char.ofNat 123) (Char.ofNat 125) elem_db_type
  else .plainCol db_type

/-! ## Decode semantics of the generated SELECT expressions

These functions give the run-time meaning, on one raw column value, of
the SQL expressions that the script interpolates into each scan's SELECT
list.  The raw value is an `Option String`: `none` models SQL `NULL`
(the CSV reader's `nullstr='-'` already turns the sentinel into `NULL`;
the generated `CASE` nevertheless re-tests `= '-'`, which we keep). -/

/-- DuckDB `TRIM` (spaces only) on the character list. -/
def sqlTrimChars (l : List Char) : List Char :=
  ((l.dropWhile (· = ' ')).reverse.dropWhile (· = ' ')).reverse

/-- DuckDB `TRIM` on strings. -/
def sqlTrim (s : String) : String := String.mk (sqlTrimChars s.data)

/-- DuckDB `REPLACE(s, c, ⬝)` with a one-character pattern and empty
replacement removes every occurrence of the character, not only an
enclosing pair. -/
def sqlRemoveChar (c : Char) (s : String) : String :=
  String.mk (s.data.filter (fun x => x != c))

/-- Parse an unsigned decimal numeral; helper for the modelled INET
cast. -/
def parseDecChars (l : List Char) : Option Nat :=
  if l ≠ [] ∧ l.all (·.isDigit) then
    some (l.foldl (fun a c => a * 10 + (c.toNat - 48)) 0)
  else none

/-- The four octets of a 32-bit IPv4 integer, most significant first. -/
def ipv4Octets (a : Nat) : List Nat :=
  [a / 16777216 % 256, a / 65536 % 256, a / 256 % 256, a % 256]

/-- Decimal digit characters of a natural number. -/
def decChars (n : Nat) : List Char := Nat.toDigits 10 n

/-- Decimal numeral of a natural number as a string (Python `str`). -/
def natStr (n : Nat) : String := String.mk (decChars n)

/-- Character list of the dotted-decimal IPv4 form. -/
def ipv4Chars (a : Nat) : List Char :=
  joinChars ['.'] ((ipv4Octets a).map decChars)

/-- Model of Python `str(ipaddress.IPv4Address(a))`: canonical
dotted-decimal text. -/
def ipv4Str (a : Nat) : String := String.mk (ipv4Chars a)

/-- Dotted-decimal IPv4 parser: four decimal octets, each at most 255. -/
def parseIPv4Chars (l : List Char) : Option Nat :=
  match (charSplit '.' l).map parseDecChars with
  | [some w, some x, some y, some z] =>
    if w ≤ 255 ∧ x ≤ 255 ∧ y ≤ 255 ∧ z ≤ 255 then
      some (w * 16777216 + x * 65536 + y * 256 + z)
    else none
  | _ => none

/-- Model of DuckDB `TRY_CAST(s AS INET)` for the IPv4 family, the family
exercised by this development; the result carries the engine's
`(ip_type, address)` representation and any unparsable text yields
`none` (`TRY_CAST` never raises).  IPv6 and CIDR textual forms are
outside the modelled syntax. -/
def tryCastINET (s : String) : Option (Nat × Nat) :=
  (parseIPv4Chars s.data).map (fun a => (1, a))

/-- The CSV reader's `nullstr='-'` handling of one raw cell of a VARCHAR
column. -/
def csvCell (raw : String) : Option String := if raw = "-" then none else some raw

/-- Model of DuckDB's text-to-BOOLEAN cast, used by the CSV reader for
columns declared `'BOOLEAN'`. -/
def parseBoolText (s : String) : Option Bool :=
  if s = "T" ∨ s = "t" ∨ s = "true" ∨ s = "True" ∨ s = "TRUE" ∨ s = "1" then some true
  else if s = "F" ∨ s = "f" ∨ s = "false" ∨ s = "False" ∨ s = "FALSE" ∨ s = "0" then some false
  else none

/-- One raw cell of a column declared `'BOOLEAN'`: the outer `none`
models a row rejected by the reader (under `ignore_errors=True` such a
row is dropped), `some none` models a NULL value from the null
sentinel. -/
def csvBoolCell (raw : String) : Option (Option Bool) :=
  if raw = "-" then some none else (parseBoolText raw).map some

/-- Semantics of the scalar INET decode expression (lines 150-151):
`TRY_CAST(CASE WHEN f = '-' OR f = '(empty)' OR f IS NULL OR f = ''
THEN NULL ELSE f END AS INET)`. -/
def decode_inet_col (v : Option String) : Option (Nat × Nat) :=
  match v with
  | none => none
  | some s => if s = "-" ∨ s = "(empty)" ∨ s = "" then none else tryCastINET s

/-- The shared interior transformation of the three container decode
expressions: `string_split(REPLACE(REPLACE(TRIM(f), open, ⬝), close, ⬝),
',')`. -/
def containerBody (bO bC : Char) (s : String) : List String :=
  splitOnChar ',' (sqlRemoveChar bC (sqlRemoveChar bO (sqlTrim s)))

/-- Semantics of the INET-element container decode expression
(lines 174-186): null for the sentinel, `(empty)`, NULL, the empty
string and the literal empty-container token; otherwise split and
`TRY_CAST(TRIM(x) AS INET)` each piece. -/
def decode_container_inet (bO bC : Char) (v : Option String) :
    Option (List (Option (Nat × Nat))) :=
  match v with
  | none => none
  | some s =>
    if s = "-" ∨ s = "(empty)" ∨ s = "" then none
    else if s = String.mk [bO, bC] then none
    else some ((containerBody bO bC s).map (fun x => tryCastINET (sqlTrim x)))

/-- Semantics of the container decode expression for a non-VARCHAR,
non-INET element type (lines 190-202), parameterized by the element's
`TRY_CAST`; note the absence of the `(empty)` test. -/
def decode_container_cast {α : Type} (bO bC : Char) (castElem : String → Option α)
    (v : Option String) : Option (List (Option α)) :=
  match v with
  | none => none
  | some s =>
    if s = "-" ∨ s = "" then none
    else if s = String.mk [bO, bC] then none
    else some ((containerBody bO bC s).map (fun x => castElem (sqlTrim x)))

/-- Semantics of the VARCHAR-element container decode expression
(lines 205-214): split only, with no per-piece trim or cast and no
`(empty)` test. -/
def decode_container_varchar (bO bC : Char) (v : Option String) :
    Option (List String) :=
  match v with
  | none => none
  | some s =>
    if s = "-" ∨ s = "" then none
    else if s = String.mk [bO, bC] then none
    else some (containerBody bO bC s)

/-! ## The registered physical scan (lines 222-225) -/

/-- The keyword arguments of the generated `read_csv` call. -/
structure ReadCsvSpec where
  files : List String
  delim : String
  skip : Nat
  header : Bool
  columns : List (String × String)
  nullstr : String
  ignoreErrors : Bool
deriving Repr, DecidableEq

/-- The declared reader type of one field (lines 150, 167, 217): INET and
container fields are read as VARCHAR and decoded in the SELECT list. -/
def colDef (f t : String) : String × String :=
  match planColumn t with
  | .inetCol => (f, "VARCHAR")
  | .containerCol _ _ _ => (f, "VARCHAR")
  | .plainCol db => (f, db)

/-- The `columns={...}` argument of one variant's scan. -/
def colDefs (v : SchemaVariant) : List (String × String) :=
  (v.fields.zip v.types).map (fun ft => colDef ft.1 ft.2)

/-- The `read_csv` call registered for one schema variant (line 224):
`delim='\t', skip=8, header=false, nullstr='-', ignore_errors=True`,
for every variant. -/
def scanSpec (v : SchemaVariant) : ReadCsvSpec :=
  ⟨v.files, "\t", 8, false, colDefs v, "-", true⟩

/-- Model of the reader's line consumption for one file: skip `skip`
lines unconditionally, then parse each remaining line; with
`ignore_errors` a failing line is silently dropped, otherwise the first
failure aborts the scan. -/
def readRows (spec : ReadCsvSpec) (parse : String → Option (List String))
    (lines : List String) : Option (List (List String)) :=
  if spec.ignoreErrors then some ((lines.drop spec.skip).filterMap parse)
  else (lines.drop spec.skip).mapM parse

/-! ## Union by name (lines 222-229)

Each variant's SELECT list emits the variant's fields in order followed
by the constant provenance column `schema_source` (line 223); the view
is the `UNION ALL BY NAME` of the per-variant scans (line 228), whose
DuckDB semantics — modelled here — aligns columns by name, the result
column set being every name in order of first appearance, with rows of a
scan lacking a name padded with NULL. -/

/-- The output columns of one variant's SELECT: its fields plus the
provenance column. -/
def scanCols (v : SchemaVariant) : List String := v.fields ++ ["schema_source"]

/-- Append the not-yet-seen names of `cs` to `acc`, preserving order of
first appearance. -/
def addNewCols (acc cs : List String) : List String :=
  cs.foldl (fun a c => if a.contains c then a else a ++ [c]) acc

/-- The column set (in order) of the `UNION ALL BY NAME` view over the
variants. -/
def viewCols (vs : List SchemaVariant) : List String :=
  vs.foldl (fun a v => addNewCols a (scanCols v)) []

/-- The value a row of variant `v` (its scan output `r`, aligned with
`scanCols v`) contributes to view column `c`: the scan's own value if the
variant emits `c`, NULL otherwise. -/
def padCell (v : SchemaVariant) (r : List (Option String)) (c : String) : Option String :=
  match (scanCols v).findIdx? (· = c) with
  | some i => r.getD i none
  | none => none

/-- A scan row of variant `v` as it appears in the view, aligned with the
view's columns. -/
def rowInView (cols : List String) (v : SchemaVariant) (r : List (Option String)) :
    List (Option String) :=
  cols.map (padCell v r)

/-! ## Result re-encoder / streamer (lines 240-295)

The streaming loop prints one tab-joined header line of the cursor's
column names, then fetches pages of 1000 rows and prints one tab-joined
line per row, converting each value independently:
`None -> '-'`, `False -> 'F'`, `True -> 'T'`, an INET dictionary to the
canonical address text of its family (falling back to `str(val)` on an
unknown `ip_type` or a raised conversion error), a list to
`'[' + ','.join(items) + ']'` where each item is converted with the INET
rule or plain `str(item)` (falling back to `','.join(str(v))` if an item
conversion raises), and anything else to `str(val)`. -/

/-- The sixteen-bit groups of a 128-bit IPv6 integer, most significant
first. -/
def ipv6Groups (a : Nat) : List Nat :=
  [a / 2 ^ 112 % 65536, a / 2 ^ 96 % 65536, a / 2 ^ 80 % 65536, a / 2 ^ 64 % 65536,
   a / 2 ^ 48 % 65536, a / 2 ^ 32 % 65536, a / 2 ^ 16 % 65536, a % 65536]

/-- Maximal runs of zero groups, as `(start index, length)` pairs in
left-to-right order. -/
def zeroRuns : List Nat → Nat → List (Nat × Nat)
  | [], _ => []
  | 0 :: rest, i =>
    match zeroRuns rest (i + 1) with
    | (s, l) :: t => if s = i + 1 then (i, l + 1) :: t else (i, 1) :: (s, l) :: t
    | [] => [(i, 1)]
  | (_ + 1) :: rest, i => zeroRuns rest (i + 1)

/-- The leftmost longest zero run of length at least two, if any; models
the double-colon selection of Python `ipaddress` (strictly longer runs
win, so the leftmost of equal length is kept). -/
def bestRun (rs : List (Nat × Nat)) : Option (Nat × Nat) :=
  rs.foldl
    (fun acc r =>
      match acc with
      | none => if r.2 ≥ 2 then some r else none
      | some b => if r.2 ≥ 2 ∧ r.2 > b.2 then some r else some b)
    none

/-- Model of Python `str(ipaddress.IPv6Address(a))`: lowercase hex groups
joined with colons, the best zero run compressed to a double colon. -/
def ipv6Str (a : Nat) : String :=
  let gs := ipv6Groups a
  match bestRun (zeroRuns gs 0) with
  | none => String.mk (joinChars [':'] (gs.map (Nat.toDigits 16)))
  | some (s, l) =>
    String.mk (joinChars [':'] ((gs.take s).map (Nat.toDigits 16)) ++ [':', ':'] ++
      joinChars [':'] ((gs.drop (s + l)).map (Nat.toDigits 16)))

/-- Engine result values as seen by the streaming loop: `vnull` is
Python `None`, `vinet` the DuckDB INET dictionary with its `ip_type` and
integer `address` entries, `vlist` a DuckDB LIST, `vtext` any other value
carried as its `str` rendering. -/
inductive Value where
  | vnull : Value
  | vbool (b : Bool) : Value
  | vinet (ipType address : Nat) : Value
  | vlist (items : List Value) : Value
  | vtext (s : String) : Value

mutual

/-- Model of Python `str()` on engine values.  The dictionary rendering
is modelled without quote characters, and nested lists are rendered with
`str` rather than `repr` of the elements; no theorem depends on the
exact fallback text. -/
def pyStr : Value → String
  | .vnull => "None"
  | .vbool true => "True"
  | .vbool false => "False"
  | .vinet t a => "\x7bip_type: " ++ natStr t ++ ", address: " ++ natStr a ++ "\x7d"
  | .vlist l => "[" ++ pyJoin ", " (pyStrList l) ++ "]"
  | .vtext s => s

/-- Python `str()` mapped over a list of values. -/
def pyStrList : List Value → List String
  | [] => []
  | v :: vs => pyStr v :: pyStrList vs

end

/-- One element of a LIST value as rendered inside the list branch
(lines 276-288): the INET dictionary rule, then plain `str(item)`;
`none` models a raised `ipaddress` conversion error (an address integer
out of range for its family), which aborts to the list's fallback. -/
def formattedItem : Value → Option String
  | .vinet 1 a => if a < 4294967296 then some (ipv4Str a) else none
  | .vinet 2 a => if a < 2 ^ 128 then some (ipv6Str a) else none
  | .vinet t a => some (pyStr (.vinet t a))
  | v => some (pyStr v)

/-- The item loop of the list branch: the first raised conversion aborts
the whole `try` block. -/
def formattedItems : List Value → Option (List String)
  | [] => some []
  | v :: vs =>
    match formattedItem v, formattedItems vs with
    | some s, some rest => some (s :: rest)
    | _, _ => none

/-- Model of the per-value conversion of the streaming loop
(lines 251-293). -/
def formatted_value : Value → String
  | .vnull => "-"
  | .vbool false => "F"
  | .vbool true => "T"
  | .vinet t a =>
    if t = 1 then (if a < 4294967296 then ipv4Str a else pyStr (.vinet t a))
    else if t = 2 then (if a < 2 ^ 128 then ipv6Str a else pyStr (.vinet t a))
    else pyStr (.vinet t a)
  | .vlist l =>
    match formattedItems l with
    | some items => "[" ++ pyJoin "," items ++ "]"
    | none => "[" ++ pyJoin "," (pyStrList l) ++ "]"
  | .vtext s => s

/-- The converted row (lines 250-293): every value independently. -/
def formatted_row (row : List Value) : List String := row.map formatted_value

/-- Tab-join of one output line (lines 242 and 294). -/
def joinTab (xs : List String) : String := pyJoin "\t" xs

/-- Fuel-driven paging: split a list into chunks of `n`; the fuel is the
list length, enough for any positive page size. -/
def chunkGo (n : Nat) : Nat → List (List Value) → List (List (List Value))
  | _, [] => []
  | 0, _ :: _ => []
  | f + 1, x :: xs => ((x :: xs).take n) :: chunkGo n f ((x :: xs).drop n)

/-- Model of the `res.fetchmany(1000)` loop: the cursor's rows arrive in
pages of 1000 until exhausted. -/
def fetchPages (rows : List (List Value)) : List (List (List Value)) :=
  chunkGo 1000 rows.length rows

/-- Model of the streaming output (lines 240-295): the header line of the
cursor's column names, then one converted line per row of each fetched
page, in cursor order. -/
def stream_output (desc : List String) (rows : List (List Value)) : List String :=
  joinTab desc :: ((fetchPages rows).map (fun page => page.map (fun r => joinTab (formatted_row r)))).flatten

/-! ## Helper lemmas about the string toolbox -/

theorem joinChars_cons₂ (sep : List Char) (x y : List Char) (t : List (List Char)) :
    joinChars sep (x :: y :: t) = x ++ sep ++ joinChars sep (y :: t) := rfl

theorem charSplit_of_not_mem {sep : Char} : ∀ {l : List Char}, sep ∉ l → charSplit sep l = [l]
  | [], _ => rfl
  | c :: rest, h => by
    have hc : ¬(c = sep) := fun he => h (by simp [he])
    have hr : sep ∉ rest := fun hm => h (List.mem_cons_of_mem _ hm)
    simp only [charSplit, if_neg hc, charSplit_of_not_mem hr]

theorem charSplit_append {sep : Char} (r : List Char) :
    ∀ (x : List Char), sep ∉ x → charSplit sep (x ++ sep :: r) = x :: charSplit sep r
  | [], _ => by simp [charSplit]
  | c :: cs, h => by
    have hc : ¬(c = sep) := fun he => h (by simp [he])
    have h2 : sep ∉ cs := fun hm => h (List.mem_cons_of_mem _ hm)
    rw [List.cons_append]
    simp only [charSplit, if_neg hc, charSplit_append r cs h2]

theorem charSplit_joinChars {sep : Char} :
    ∀ (xs : List (List Char)), xs ≠ [] → (∀ x ∈ xs, sep ∉ x) →
      charSplit sep (joinChars [sep] xs) = xs
  | [], h1, _ => absurd rfl h1
  | [x], _, h2 => by
    show charSplit sep x = [x]
    exact charSplit_of_not_mem (h2 x (by simp))
  | x :: y :: t, _, h2 => by
    rw [joinChars_cons₂, List.append_assoc, List.singleton_append,
      charSplit_append _ x (h2 x (by simp)),
      charSplit_joinChars (y :: t) (by simp) (fun z hz => h2 z (by simp [hz]))]

theorem mem_joinChars {c : Char} {sep : List Char} :
    ∀ (xs : List (List Char)), c ∈ joinChars sep xs → c ∈ sep ∨ ∃ x ∈ xs, c ∈ x
  | [], h => absurd h (by simp [joinChars])
  | [x], h => Or.inr ⟨x, by simp, h⟩
  | x :: y :: t, h => by
    rw [joinChars_cons₂] at h
    rcases List.mem_append.mp h with h1 | h2
    · rcases List.mem_append.mp h1 with h3 | h4
      · exact Or.inr ⟨x, by simp, h3⟩
      · exact Or.inl h4
    · rcases mem_joinChars (y :: t) h2 with h5 | ⟨z, hz, hcz⟩
      · exact Or.inl h5
      · exact Or.inr ⟨z, List.mem_cons_of_mem x hz, hcz⟩

theorem joinChars_eq_nil {sep : List Char} {x : List Char} {t : List (List Char)}
    (h : joinChars sep (x :: t) = []) : x = [] := by
  cases t with
  | nil => exact h
  | cons y t2 =>
    rw [joinChars_cons₂] at h
    rcases List.append_eq_nil.mp h with ⟨h3, _⟩
    exact (List.append_eq_nil.mp h3).1

theorem joinChars_cons₂_ne_nil (sep : List Char) (hsep : sep ≠ []) (x y : List Char)
    (t : List (List Char)) : joinChars sep (x :: y :: t) ≠ [] := by
  rw [joinChars_cons₂]
  intro h
  rcases List.append_eq_nil.mp h with ⟨h3, _⟩
  exact hsep (List.append_eq_nil.mp h3).2

theorem dropWhile_eq_self_of {p : Char → Bool} :
    ∀ (l : List Char), (∀ c ∈ l, p c = false) → l.dropWhile p = l
  | [], _ => rfl
  | c :: rest, h => by
    rw [List.dropWhile_cons, if_neg (by simp [h c (by simp)])]

theorem sqlTrimChars_eq_self {l : List Char} (h : ∀ c ∈ l, c ≠ ' ') : sqlTrimChars l = l := by
  have h' : ∀ c ∈ l, (decide (c = ' ')) = false := fun c hc => by simp [h c hc]
  unfold sqlTrimChars
  rw [dropWhile_eq_self_of l h',
    dropWhile_eq_self_of l.reverse (fun c hc => h' c (List.mem_reverse.mp hc)),
    List.reverse_reverse]

theorem sqlTrimChars_bracketed (bO bC : Char) (mid : List Char) (hO : bO ≠ ' ')
    (hC : bC ≠ ' ') : sqlTrimChars (bO :: (mid ++ [bC])) = bO :: (mid ++ [bC]) := by
  have hrev : (bO :: (mid ++ [bC])).reverse = bC :: (mid.reverse ++ [bO]) := by
    simp [List.reverse_cons, List.reverse_append]
  unfold sqlTrimChars
  rw [List.dropWhile_cons, if_neg (by simp [hO]), hrev, List.dropWhile_cons,
    if_neg (by simp [hC]), ← hrev, List.reverse_reverse]

/-! ## Helper lemmas about the modelled address codec -/

set_option maxRecDepth 4000 in
theorem decChars_spec : ∀ n, n < 256 →
    (parseDecChars (decChars n) = some n ∧ (decChars n).all (·.isDigit) = true ∧
      decChars n ≠ []) := by decide

theorem isDigit_ne {c : Char} (h : c.isDigit = true) :
    c ≠ '.' ∧ c ≠ ',' ∧ c ≠ ' ' ∧ c ≠ '[' ∧ c ≠ ']' ∧ c ≠ '-' ∧ c ≠ '(' ∧
      c ≠ Char.ofNat 123 ∧ c ≠ Char.ofNat 125 := by
  refine ⟨?_, ?_, ?_, ?_, ?_, ?_, ?_, ?_, ?_⟩ <;>
    (intro he; subst he; exact absurd h (by decide))

theorem ipv4Octets_lt (a : Nat) : ∀ o ∈ ipv4Octets a, o < 256 := by
  intro o ho
  simp only [ipv4Octets, List.mem_cons, List.not_mem_nil, or_false] at ho
  rcases ho with rfl | rfl | rfl | rfl <;> omega

theorem ipv4Chars_mem {a : Nat} {c : Char} (h : c ∈ ipv4Chars a) :
    c.isDigit = true ∨ c = '.' := by
  simp only [ipv4Chars] at h
  rcases mem_joinChars _ h with hs | ⟨x, hx, hcx⟩
  · right; simpa using hs
  · left
    rcases List.mem_map.mp hx with ⟨o, ho, rfl⟩
    have hall := (decChars_spec o (ipv4Octets_lt a o ho)).2.1
    exact List.all_eq_true.mp hall c hcx

theorem ipv4Chars_ne_nil (a : Nat) : ipv4Chars a ≠ [] := by
  simp only [ipv4Chars, ipv4Octets, List.map_cons, joinChars_cons₂]
  intro h
  rcases List.append_eq_nil.mp h with ⟨h1, _⟩
  exact absurd (List.append_eq_nil.mp h1).2 (by simp)

theorem ipv4Str_ne_sentinels (a : Nat) :
    ipv4Str a ≠ "-" ∧ ipv4Str a ≠ "(empty)" ∧ ipv4Str a ≠ "" := by
  refine ⟨?_, ?_, ?_⟩ <;> intro he
  · have hd : ipv4Chars a = ['-'] := congrArg String.data he
    have hm : '-' ∈ ipv4Chars a := by rw [hd]; simp
    rcases ipv4Chars_mem hm with h1 | h1 <;> exact absurd h1 (by decide)
  · have hd : ipv4Chars a = "(empty)".data := congrArg String.data he
    have hm : '(' ∈ ipv4Chars a := by rw [hd]; decide
    rcases ipv4Chars_mem hm with h1 | h1 <;> exact absurd h1 (by decide)
  · exact ipv4Chars_ne_nil a (congrArg String.data he)

theorem tryCastINET_ipv4Str (a : Nat) (h : a < 4294967296) :
    tryCastINET (ipv4Str a) = some (1, a) := by
  have hsplit : charSplit '.' (ipv4Chars a) = (ipv4Octets a).map decChars := by
    apply charSplit_joinChars
    · simp [ipv4Octets]
    · intro x hx
      rcases List.mem_map.mp hx with ⟨o, ho, rfl⟩
      intro hdot
      have hall := (decChars_spec o (ipv4Octets_lt a o ho)).2.1
      exact absurd (List.all_eq_true.mp hall '.' hdot) (by decide)
  have h1 : a / 16777216 % 256 < 256 := Nat.mod_lt _ (by omega)
  have h2 : a / 65536 % 256 < 256 := Nat.mod_lt _ (by omega)
  have h3 : a / 256 % 256 < 256 := Nat.mod_lt _ (by omega)
  have h4 : a % 256 < 256 := Nat.mod_lt _ (by omega)
  have hmap : (charSplit '.' (ipv4Chars a)).map parseDecChars =
      [some (a / 16777216 % 256), some (a / 65536 % 256), some (a / 256 % 256),
        some (a % 256)] := by
    rw [hsplit]
    simp only [ipv4Octets, List.map_cons, List.map_nil]
    rw [(decChars_spec _ h1).1, (decChars_spec _ h2).1, (decChars_spec _ h3).1,
      (decChars_spec _ h4).1]
  show (parseIPv4Chars (ipv4Chars a)).map (fun v => (1, v)) = some (1, a)
  unfold parseIPv4Chars
  rw [hmap]
  change Option.map (fun v => ((1 : Nat), v))
      (if a / 16777216 % 256 ≤ 255 ∧ a / 65536 % 256 ≤ 255 ∧ a / 256 % 256 ≤ 255 ∧
          a % 256 ≤ 255
       then some (a / 16777216 % 256 * 16777216 + a / 65536 % 256 * 65536 +
          a / 256 % 256 * 256 + a % 256)
       else none) = some (1, a)
  rw [if_pos (by omega)]
  have hsum : a / 16777216 % 256 * 16777216 + a / 65536 % 256 * 65536 +
      a / 256 % 256 * 256 + a % 256 = a := by omega
  rw [Option.map_some', hsum]

theorem sqlTrim_ipv4Str (a : Nat) : sqlTrim (ipv4Str a) = ipv4Str a := by
  show String.mk (sqlTrimChars (ipv4Chars a)) = String.mk (ipv4Chars a)
  congr 1
  apply sqlTrimChars_eq_self
  intro c hc
  rcases ipv4Chars_mem hc with h1 | h1
  · exact (isDigit_ne h1).2.2.1
  · rw [h1]; decide

/-! ## Helper lemmas about container decode on re-encoded text -/

theorem containerBody_encode (bO bC : Char) (items : List String)
    (hO1 : bO ≠ ' ') (hC1 : bC ≠ ' ') (hCO : bC ≠ bO) (hOc : bO ≠ ',') (hCc : bC ≠ ',')
    (h1 : items ≠ [])
    (h2 : ∀ x ∈ items, ∀ c ∈ x.data, c ≠ ',' ∧ c ≠ bO ∧ c ≠ bC) :
    containerBody bO bC
      (String.mk (bO :: (joinChars [','] (items.map String.data) ++ [bC]))) = items := by
  have hJ : ∀ c ∈ joinChars [','] (items.map String.data), c ≠ bO ∧ c ≠ bC := by
    intro c hc
    rcases mem_joinChars _ hc with hs | ⟨x, hx, hcx⟩
    · have hcomma : c = ',' := by simpa using hs
      subst hcomma
      exact ⟨fun he => hOc he.symm, fun he => hCc he.symm⟩
    · rcases List.mem_map.mp hx with ⟨y, hy, rfl⟩
      exact ⟨(h2 y hy c hcx).2.1, (h2 y hy c hcx).2.2⟩
  have hred : containerBody bO bC
      (String.mk (bO :: (joinChars [','] (items.map String.data) ++ [bC]))) =
      (charSplit ','
        (((sqlTrimChars (bO :: (joinChars [','] (items.map String.data) ++ [bC]))).filter
            (fun x => x != bO)).filter (fun x => x != bC))).map String.mk := rfl
  rw [hred, sqlTrimChars_bracketed bO bC _ hO1 hC1]
  have hf1 : ((bO :: (joinChars [','] (items.map String.data) ++ [bC])).filter
      (fun x => x != bO)) = joinChars [','] (items.map String.data) ++ [bC] := by
    rw [List.filter_cons, if_neg (by simp), List.filter_append]
    rw [List.filter_eq_self.mpr (fun c hc => by simp [(hJ c hc).1])]
    congr 1
    simp [hCO]
  rw [hf1, List.filter_append,
    List.filter_eq_self.mpr (fun c hc => by simp [(hJ c hc).2])]
  have hf2 : ([bC].filter (fun x => x != bC)) = [] := by simp
  rw [hf2, List.append_nil,
    charSplit_joinChars (items.map String.data) (by simpa using h1)
      (fun x hx hm => by
        rcases List.mem_map.mp hx with ⟨y, hy, rfl⟩
        exact (h2 y hy ',' hm).1 rfl),
    List.map_map]
  have hid : (String.mk ∘ String.data) = (id : String → String) := funext (fun x => rfl)
  rw [hid, List.map_id]

theorem bracketed_ne (J : List Char) :
    String.mk ('[' :: (J ++ [']'])) ≠ "-" ∧ String.mk ('[' :: (J ++ [']'])) ≠ "(empty)" ∧
      String.mk ('[' :: (J ++ [']'])) ≠ "" := by
  refine ⟨?_, ?_, ?_⟩ <;> intro he
  · have hd : '[' :: (J ++ [']']) = ['-'] := congrArg String.data he
    exact absurd ((List.cons.injEq _ _ _ _).mp hd).1 (by decide)
  · have hd : '[' :: (J ++ [']']) = "(empty)".data := congrArg String.data he
    exact absurd ((List.cons.injEq _ _ _ _).mp hd).1 (by decide)
  · exact List.cons_ne_nil _ _ (congrArg String.data he)

theorem bracketed_ne_token (J : List Char) (hJ : J ≠ []) :
    String.mk ('[' :: (J ++ [']'])) ≠ String.mk ['[', ']'] := by
  intro he
  have hd : '[' :: (J ++ [']']) = ['[', ']'] := congrArg String.data he
  have htl : J ++ [']'] = [']'] := ((List.cons.injEq _ _ _ _).mp hd).2
  have hlen := congrArg List.length htl
  simp only [List.length_append, List.length_cons, List.length_nil] at hlen
  exact hJ (List.eq_nil_of_length_eq_zero (by omega))

/-- The character-list shape of a re-encoded list value. -/
theorem encode_list_data (items : List String) :
    ("[" ++ pyJoin "," items ++ "]") =
      String.mk ('[' :: (joinChars [','] (items.map String.data) ++ [']'])) := rfl

/-- Decode of a re-encoded VARCHAR-element container recovers the items
in order, provided the items avoid the delimiter and bracket characters
and the container is not empty (and not the lone empty string, whose
encoding collapses to the empty-container token). -/
theorem decode_container_varchar_encode (items : List String) (h1 : items ≠ [])
    (h1b : items ≠ [""])
    (h2 : ∀ x ∈ items, ∀ c ∈ x.data, c ≠ ',' ∧ c ≠ '[' ∧ c ≠ ']') :
    decode_container_varchar '[' ']' (some ("[" ++ pyJoin "," items ++ "]")) = some items := by
  have hJne : joinChars [','] (items.map String.data) ≠ [] := by
    intro hJ
    cases items with
    | nil => exact h1 rfl
    | cons x t =>
      cases t with
      | nil =>
        have hx : x.data = [] := joinChars_eq_nil (by simpa using hJ)
        exact h1b (by rw [show x = "" from congrArg String.mk hx])
      | cons y t2 =>
        exact joinChars_cons₂_ne_nil [','] (by simp) _ _ _ (by simpa using hJ)
  rw [encode_list_data]
  have hA : ¬(String.mk ('[' :: (joinChars [','] (items.map String.data) ++ [']'])) = "-" ∨
      String.mk ('[' :: (joinChars [','] (items.map String.data) ++ [']'])) = "") := by
    rintro (he | he)
    · exact (bracketed_ne _).1 he
    · exact (bracketed_ne _).2.2 he
  have hB := bracketed_ne_token _ hJne
  simp only [decode_container_varchar, if_neg hA, if_neg hB]
  exact congrArg some
    (containerBody_encode '[' ']' items (by decide) (by decide) (by decide) (by decide)
      (by decide) h1 h2)

/-- Decode of a re-encoded INET-element container recovers the addresses
in order. -/
theorem decode_container_inet_encode (as : List Nat) (h1 : as ≠ [])
    (h2 : ∀ x ∈ as, x < 4294967296) :
    decode_container_inet '[' ']' (some ("[" ++ pyJoin "," (as.map ipv4Str) ++ "]")) =
      some (as.map (fun x => some ((1 : Nat), x))) := by
  have hitems : ∀ x ∈ as.map ipv4Str, ∀ c ∈ x.data, c ≠ ',' ∧ c ≠ '[' ∧ c ≠ ']' := by
    intro x hx c hc
    rcases List.mem_map.mp hx with ⟨o, _, rfl⟩
    rcases ipv4Chars_mem hc with hd | hd
    · exact ⟨(isDigit_ne hd).2.1, (isDigit_ne hd).2.2.2.1, (isDigit_ne hd).2.2.2.2.1⟩
    · rw [hd]; refine ⟨by decide, by decide, by decide⟩
  have hJne : joinChars [','] ((as.map ipv4Str).map String.data) ≠ [] := by
    intro hJ
    rcases List.exists_cons_of_ne_nil h1 with ⟨a0, t, rfl⟩
    cases t with
    | nil => exact ipv4Chars_ne_nil a0 (joinChars_eq_nil (by simpa using hJ))
    | cons y t2 => exact joinChars_cons₂_ne_nil [','] (by simp) _ _ _ (by simpa using hJ)
  rw [encode_list_data]
  have hA : ¬(String.mk ('[' :: (joinChars [','] ((as.map ipv4Str).map String.data) ++ [']'])) = "-" ∨
      String.mk ('[' :: (joinChars [','] ((as.map ipv4Str).map String.data) ++ [']'])) = "(empty)" ∨
      String.mk ('[' :: (joinChars [','] ((as.map ipv4Str).map String.data) ++ [']'])) = "") := by
    rintro (he | he | he)
    · exact (bracketed_ne _).1 he
    · exact (bracketed_ne _).2.1 he
    · exact (bracketed_ne _).2.2 he
  have hB := bracketed_ne_token _ hJne
  simp only [decode_container_inet, if_neg hA, if_neg hB]
  rw [containerBody_encode '[' ']' (as.map ipv4Str) (by decide) (by decide) (by decide)
    (by decide) (by decide) (by simpa using h1) hitems]
  congr 1
  rw [List.map_map]
  apply List.map_congr_left
  intro a ha
  show tryCastINET (sqlTrim (ipv4Str a)) = some (1, a)
  rw [sqlTrim_ipv4Str, tryCastINET_ipv4Str a (h2 a ha)]

/-! ## Helper lemmas about the re-encoder and the stream -/

theorem formattedItems_inet (as : List Nat) (h : ∀ x ∈ as, x < 4294967296) :
    formattedItems (as.map (Value.vinet 1)) = some (as.map ipv4Str) := by
  induction as with
  | nil => rfl
  | cons a t ih =>
    simp only [List.map_cons, formattedItems, formattedItem, if_pos (h a (by simp)),
      ih (fun x hx => h x (by simp [hx]))]

theorem formatted_value_inet_list (as : List Nat) (h : ∀ x ∈ as, x < 4294967296) :
    formatted_value (.vlist (as.map (.vinet 1))) = "[" ++ pyJoin "," (as.map ipv4Str) ++ "]" := by
  simp only [formatted_value, formattedItems_inet as h]

theorem formatted_value_inet {a : Nat} (h : a < 4294967296) :
    formatted_value (.vinet 1 a) = ipv4Str a := by
  simp [formatted_value, h]

theorem formattedItems_of_failed {v : Value} (hv : formattedItem v = none) :
    ∀ (r1 r2 : List Value), formattedItems (r1 ++ v :: r2) = none := by
  intro r1
  induction r1 with
  | nil => intro r2; simp only [List.nil_append, formattedItems, hv]
  | cons x t ih =>
    intro r2
    simp only [List.cons_append, formattedItems, List.append_eq, ih r2]
    cases formattedItem x <;> rfl

theorem chunkGo_flatten (n : Nat) (hn : 0 < n) :
    ∀ (f : Nat) (l : List (List Value)), l.length ≤ f → (chunkGo n f l).flatten = l := by
  intro f
  induction f with
  | zero =>
    intro l h
    cases l with
    | nil => simp [chunkGo]
    | cons x xs => simp at h
  | succ k ih =>
    intro l h
    cases l with
    | nil => simp [chunkGo]
    | cons x xs =>
      simp only [List.length_cons] at h
      have hlen : ((x :: xs).drop n).length ≤ k := by
        rw [List.length_drop]
        simp only [List.length_cons]
        omega
      simp only [chunkGo, List.flatten_cons]
      rw [ih _ hlen]
      exact List.take_append_drop n (x :: xs)

theorem flatten_map_map {α β : Type} (g : α → β) :
    ∀ (ls : List (List α)), (ls.map (List.map g)).flatten = ls.flatten.map g := by
  intro ls
  induction ls with
  | nil => simp
  | cons x t ih => simp only [List.map_cons, List.flatten_cons, List.map_append, ih]

/-- The streamed output is exactly the header line followed by one
converted line per cursor row, in cursor order. -/
theorem stream_output_eq (desc : List String) (rows : List (List Value)) :
    stream_output desc rows = joinTab desc :: rows.map (fun r => joinTab (formatted_row r)) := by
  unfold stream_output fetchPages
  congr 1
  rw [flatten_map_map]
  rw [chunkGo_flatten 1000 (by omega) rows.length rows (le_refl _)]

/-! ## Helper lemmas about union by name -/

theorem mem_addNewCols (c : String) :
    ∀ (cs acc : List String), c ∈ addNewCols acc cs ↔ c ∈ acc ∨ c ∈ cs := by
  intro cs
  induction cs with
  | nil => intro acc; simp [addNewCols]
  | cons d t ih =>
    intro acc
    show c ∈ List.foldl _ (if acc.contains d then acc else acc ++ [d]) t ↔ _
    rw [show List.foldl (fun a c => if a.contains c then a else a ++ [c])
        (if acc.contains d then acc else acc ++ [d]) t =
        addNewCols (if acc.contains d then acc else acc ++ [d]) t from rfl, ih]
    by_cases hd : acc.contains d
    · rw [if_pos hd]
      have hdm : d ∈ acc := by
        have := hd
        simp only [List.contains, List.elem_iff] at this
        exact this
      constructor
      · rintro (h | h)
        · exact Or.inl h
        · exact Or.inr (List.mem_cons_of_mem _ h)
      · rintro (h | h)
        · exact Or.inl h
        · rcases List.mem_cons.mp h with rfl | h2
          · exact Or.inl hdm
          · exact Or.inr h2
    · rw [if_neg hd]
      constructor
      · rintro (h | h)
        · rcases List.mem_append.mp h with h2 | h2
          · exact Or.inl h2
          · exact Or.inr (by rw [List.mem_singleton.mp h2]; exact List.mem_cons_self d t)
        · exact Or.inr (List.mem_cons_of_mem _ h)
      · rintro (h | h)
        · exact Or.inl (List.mem_append.mpr (Or.inl h))
        · rcases List.mem_cons.mp h with rfl | h2
          · exact Or.inl (List.mem_append.mpr (Or.inr (by simp)))
          · exact Or.inr h2

theorem mem_viewCols_aux (c : String) :
    ∀ (vs : List SchemaVariant) (acc : List String),
      c ∈ vs.foldl (fun a v => addNewCols a (scanCols v)) acc ↔
        c ∈ acc ∨ ∃ v ∈ vs, c ∈ scanCols v := by
  intro vs
  induction vs with
  | nil => intro acc; simp
  | cons v t ih =>
    intro acc
    rw [List.foldl_cons, ih, mem_addNewCols]
    constructor
    · rintro ((h | h) | ⟨w, hw, hc⟩)
      · exact Or.inl h
      · exact Or.inr ⟨v, by simp, h⟩
      · exact Or.inr ⟨w, List.mem_cons_of_mem _ hw, hc⟩
    · rintro (h | ⟨w, hw, hc⟩)
      · exact Or.inl (Or.inl h)
      · rcases List.mem_cons.mp hw with rfl | h2
        · exact Or.inl (Or.inr hc)
        · exact Or.inr ⟨w, h2, hc⟩

theorem mem_viewCols {c : String} {vs : List SchemaVariant} :
    c ∈ viewCols vs ↔ ∃ v ∈ vs, c ∈ scanCols v := by
  rw [viewCols, mem_viewCols_aux]
  simp

theorem padCell_of_not_mem {v : SchemaVariant} {r : List (Option String)} {c : String}
    (hc : c ∉ scanCols v) : padCell v r c = none := by
  unfold padCell
  rw [List.findIdx?_eq_none_iff.mpr (fun x hx => by
    simp only [decide_eq_false_iff_not]
    intro he
    exact hc (he ▸ hx))]

/-! ## Helper lemmas about the header scanner -/

/-- A successful scan is insensitive to lines after the stopping point:
appending further lines to the stream changes nothing. -/
theorem metadataLoop_append {junk : List String} :
    ∀ (n : Nat) (lines : List String) (lp : Option String) (fs ts : List String)
      (m : HeaderMetadata), metadataLoop n lines lp fs ts = some m →
      metadataLoop n (lines ++ junk) lp fs ts = some m := by
  intro n
  induction n with
  | zero => intro lines lp fs ts m h; exact absurd h (by simp [metadataLoop])
  | succ k ih =>
    intro lines lp fs ts m h
    cases lines with
    | nil => exact absurd h (by simp [metadataLoop])
    | cons line rest =>
      rw [List.cons_append]
      cases hp : pyStartswith "#path" line with
      | true =>
        cases hidx : (splitOnChar '\t' (pyStrip line))[1]? with
        | none => simp [metadataLoop, hp, hidx] at h
        | some p =>
          simp [metadataLoop, hp, hidx] at h ⊢
          exact ih _ _ _ _ _ h
      | false =>
        cases hf : pyStartswith "#fields" line with
        | true =>
          simp [metadataLoop, hp, hf] at h ⊢
          exact ih _ _ _ _ _ h
        | false =>
          cases ht : pyStartswith "#types" line with
          | false =>
            simp [metadataLoop, hp, hf, ht] at h ⊢
            exact ih _ _ _ _ _ h
          | true =>
            cases lp with
            | none =>
              simp [metadataLoop, hp, hf, ht] at h ⊢
              exact ih _ _ _ _ _ h
            | some p =>
              by_cases hg : p ≠ "" ∧ fs ≠ [] ∧ (splitOnChar '\t' (pyStrip line)).tail ≠ []
              · have hsome1 : metadataLoop (k + 1) (line :: rest) (some p) fs ts =
                    some (p, fs, (splitOnChar '\t' (pyStrip line)).tail) := by
                  simp [metadataLoop, hp, hf, ht, hg.1, hg.2.1, hg.2.2]
                have hsome2 : metadataLoop (k + 1) (line :: (rest ++ junk)) (some p) fs ts =
                    some (p, fs, (splitOnChar '\t' (pyStrip line)).tail) := by
                  simp [metadataLoop, hp, hf, ht, hg.1, hg.2.1, hg.2.2]
                rw [hsome1] at h
                rw [hsome2]
                exact h
              · simp [metadataLoop, hp, hf, ht, hg] at h ⊢
                exact ih _ _ _ _ _ h

/-- A successful scan always carries a truthy path, field list and type
list (the Python `if log_path and fields and types` guard). -/
theorem metadataLoop_truthy :
    ∀ (n : Nat) (lines : List String) (lp : Option String) (fs ts : List String)
      (m : HeaderMetadata), metadataLoop n lines lp fs ts = some m →
      m.1 ≠ "" ∧ m.2.1 ≠ [] ∧ m.2.2 ≠ [] := by
  intro n
  induction n with
  | zero => intro lines lp fs ts m h; exact absurd h (by simp [metadataLoop])
  | succ k ih =>
    intro lines lp fs ts m h
    cases lines with
    | nil => exact absurd h (by simp [metadataLoop])
    | cons line rest =>
      cases hp : pyStartswith "#path" line with
      | true =>
        cases hidx : (splitOnChar '\t' (pyStrip line))[1]? with
        | none => simp [metadataLoop, hp, hidx] at h
        | some p =>
          simp [metadataLoop, hp, hidx] at h
          exact ih _ _ _ _ _ h
      | false =>
        cases hf : pyStartswith "#fields" line with
        | true =>
          simp [metadataLoop, hp, hf] at h
          exact ih _ _ _ _ _ h
        | false =>
          cases ht : pyStartswith "#types" line with
          | false =>
            simp [metadataLoop, hp, hf, ht] at h
            exact ih _ _ _ _ _ h
          | true =>
            cases lp with
            | none =>
              simp [metadataLoop, hp, hf, ht] at h
              exact ih _ _ _ _ _ h
            | some p =>
              by_cases hg : p ≠ "" ∧ fs ≠ [] ∧ (splitOnChar '\t' (pyStrip line)).tail ≠ []
              · have hsome : metadataLoop (k + 1) (line :: rest) (some p) fs ts =
                    some (p, fs, (splitOnChar '\t' (pyStrip line)).tail) := by
                  simp [metadataLoop, hp, hf, ht, hg.1, hg.2.1, hg.2.2]
                rw [hsome] at h
                injection h with h'
                subst h'
                exact ⟨hg.1, hg.2.1, hg.2.2⟩
              · simp [metadataLoop, hp, hf, ht, hg] at h
                exact ih _ _ _ _ _ h

/-! ## Example schema variants (the spec's union-by-name example) -/

/-- Variant A of the running example: fields `ts, uid, addr`. -/
def variantA : SchemaVariant := ⟨["ts", "uid", "addr"], ["time", "string", "addr"], ["a.log.gz"]⟩

/-- Variant B of the running example: fields `ts, uid, addr, service`. -/
def variantB : SchemaVariant :=
  ⟨["ts", "uid", "addr", "service"], ["time", "string", "addr", "string"], ["b.log.gz"]⟩

/-! ## Claim C1 -/

/-- Claim C1 counterexample: for the example variants A and B, the view's
column set is not the union of the variants' declared fields — it also
contains the provenance column `schema_source`, so it differs from the
claimed column set `{ts, uid, addr, service}`. -/
theorem c1_counterexample :
    "schema_source" ∈ viewCols [variantA, variantB] ∧
    "schema_source" ∉ ["ts", "uid", "addr", "service"] ∧
    viewCols [variantA, variantB] = ["ts", "uid", "addr", "schema_source", "service"] := by
  decide

/-- Claim C1 (amended): the logical relation's column set is the union by
name of every variant's declared fields plus the reserved provenance
column `schema_source`; a row originating from a variant that lacks a
given column reports null for that column.  For the example variants, an
A-sourced row reports null for `service`. -/
theorem c1_union_by_name (vs : List SchemaVariant) (v : SchemaVariant)
    (r : List (Option String)) (c : String) (hv : v ∈ vs) (hc : c ∉ scanCols v) :
    (c ∈ viewCols vs ↔ (∃ w ∈ vs, c ∈ w.fields) ∨ c = "schema_source") ∧
    padCell v r c = none ∧
    rowInView (viewCols [variantA, variantB]) variantA
        [some "1.0", some "u1", some "10.0.0.1", some "a.log.gz"] =
      [some "1.0", some "u1", some "10.0.0.1", some "a.log.gz", none] := by
  refine ⟨?_, padCell_of_not_mem hc, by decide⟩
  rw [mem_viewCols]
  constructor
  · rintro ⟨w, hw, hcw⟩
    rcases List.mem_append.mp hcw with h1 | h1
    · exact Or.inl ⟨w, hw, h1⟩
    · exact Or.inr (List.mem_singleton.mp h1)
  · rintro (⟨w, hw, hcw⟩ | rfl)
    · exact ⟨w, hw, List.mem_append.mpr (Or.inl hcw)⟩
    · exact ⟨v, hv, List.mem_append.mpr (Or.inr (by simp))⟩

/-- Witness for `c1_union_by_name` at the example variants and the column
`service`, absent from variant A. -/
theorem c1_witness :
    (("service" ∈ viewCols [variantA, variantB] ↔
      (∃ w ∈ [variantA, variantB], "service" ∈ w.fields) ∨ "service" = "schema_source") ∧
    padCell variantA [some "1.0", some "u1", some "10.0.0.1", some "a.log.gz"] "service" =
      none ∧
    rowInView (viewCols [variantA, variantB]) variantA
        [some "1.0", some "u1", some "10.0.0.1", some "a.log.gz"] =
      [some "1.0", some "u1", some "10.0.0.1", some "a.log.gz", none]) :=
  c1_union_by_name [variantA, variantB] variantA
    [some "1.0", some "u1", some "10.0.0.1", some "a.log.gz"] "service"
    (by simp) (by decide)

/-! ## Claim C2 -/

/-- Claim C2 counterexample: a set-category container value re-encodes
with square brackets, not its original braces, so decoding the re-encoded
text with the set variant's brace-stripping rule does not recover the
original elements; and an empty container re-encodes to the empty token,
which decodes to null, not to the empty sequence. -/
theorem c2_counterexample :
    formatted_value (Value.vlist [Value.vtext "a"]) = "[a]" ∧
    decode_container_varchar (Char.ofNat 123) (Char.ofNat 125)
      (csvCell (formatted_value (Value.vlist [Value.vtext "a"]))) = some ["[a]"] ∧
    (some ["[a]"] : Option (List String)) ≠ some ["a"] ∧
    formatted_value (Value.vlist ([] : List Value)) = "[]" ∧
    decode_container_varchar '[' ']'
      (csvCell (formatted_value (Value.vlist ([] : List Value)))) = none := by
  refine ⟨rfl, by decide, by decide, rfl, by decide⟩

/-- Claim C2 (amended): `decode(encode(v)) = v` holds for booleans
(including the null sentinel round trip) and for IPv4 network-address
values, and for nonempty vectors of such addresses; it fails for set
containers, which are re-encoded with square brackets that the
brace-oriented decode rule does not strip, and for empty containers,
whose re-encoding collapses to the empty-container token that decodes to
null. -/
theorem c2_roundtrip (b : Bool) (a : Nat) (ha : a < 4294967296) (as : List Nat)
    (h1 : as ≠ []) (h2 : ∀ x ∈ as, x < 4294967296) :
    csvBoolCell (formatted_value (Value.vbool b)) = some (some b) ∧
    csvBoolCell (formatted_value Value.vnull) = some none ∧
    decode_inet_col (csvCell (formatted_value (Value.vinet 1 a))) = some (1, a) ∧
    decode_inet_col (csvCell (formatted_value Value.vnull)) = none ∧
    decode_container_inet '[' ']'
        (csvCell (formatted_value (Value.vlist (as.map (Value.vinet 1))))) =
      some (as.map (fun x => some ((1 : Nat), x))) := by
  have hne := ipv4Str_ne_sentinels a
  refine ⟨?_, by decide, ?_, by decide, ?_⟩
  · cases b <;> rfl
  · rw [formatted_value_inet ha]
    unfold csvCell
    rw [if_neg hne.1]
    simp only [decode_inet_col]
    rw [if_neg (by rintro (he | he | he); exacts [hne.1 he, hne.2.1 he, hne.2.2 he])]
    exact tryCastINET_ipv4Str a ha
  · rw [formatted_value_inet_list as h2]
    unfold csvCell
    have hne2 : "[" ++ pyJoin "," (as.map ipv4Str) ++ "]" ≠ "-" := by
      rw [encode_list_data]
      exact (bracketed_ne _).1
    rw [if_neg hne2]
    exact decode_container_inet_encode as h1 h2

/-- Witness for `c2_roundtrip` at `true` and the two addresses of the
spec's own container example. -/
theorem c2_witness :
    csvBoolCell (formatted_value (Value.vbool true)) = some (some true) ∧
    csvBoolCell (formatted_value Value.vnull) = some none ∧
    decode_inet_col (csvCell (formatted_value (Value.vinet 1 167772161))) =
      some (1, 167772161) ∧
    decode_inet_col (csvCell (formatted_value Value.vnull)) = none ∧
    decode_container_inet '[' ']'
        (csvCell (formatted_value (Value.vlist ([167772161, 167772162].map (Value.vinet 1))))) =
      some ([167772161, 167772162].map (fun x => some ((1 : Nat), x))) :=
  c2_roundtrip true 167772161 (by decide) [167772161, 167772162] (by decide)
    (by decide)

/-! ## Claim C3 -/

/-- Claim C3 counterexample: for a non-address-element container, the
decode rule does not map the explicit empty marker `(empty)` to null —
the generated expression for such containers lacks the `(empty)` test,
so the marker decodes to a one-element sequence. -/
theorem c3_counterexample :
    decode_container_varchar '[' ']' (csvCell "(empty)") = some ["(empty)"] ∧
    decode_container_varchar '[' ']' (csvCell "(empty)") ≠ none := by
  refine ⟨by decide, by decide⟩

/-- Claim C3 (amended): the container decode rule maps the null sentinel,
NULL, the empty string and the literal empty-container token to null; the
`(empty)` marker is additionally mapped to null only for address-element
containers, while for other element types it decodes as an ordinary
value.  Otherwise the rule strips every occurrence of the two bracket
characters (not only the enclosing pair), splits on commas, and applies
the element rule to each piece in source order, trimming the pieces only
for cast element types (addresses, numerics) and not for text
elements. -/
theorem c3_decode (xs : List String) (h1 : xs ≠ []) (h1b : xs ≠ [""])
    (h2 : ∀ x ∈ xs, ∀ c ∈ x.data, c ≠ ',' ∧ c ≠ '[' ∧ c ≠ ']') :
    decode_container_varchar '[' ']' none = none ∧
    decode_container_varchar '[' ']' (csvCell "-") = none ∧
    decode_container_varchar '[' ']' (some "") = none ∧
    decode_container_varchar '[' ']' (some "[]") = none ∧
    decode_container_inet '[' ']' (some "(empty)") = none ∧
    decode_container_varchar '[' ']' (some "(empty)") = some ["(empty)"] ∧
    decode_container_inet '[' ']' (some "[10.0.0.1, 10.0.0.2]") =
      some [some (1, 167772161), some (1, 167772162)] ∧
    decode_container_varchar '[' ']' (some "[x[1],y]") = some ["x1", "y"] ∧
    decode_container_varchar '[' ']' (some ("[" ++ pyJoin "," xs ++ "]")) = some xs := by
  refine ⟨rfl, by decide, by decide, by decide, by decide, by decide, by decide, by decide,
    decode_container_varchar_encode xs h1 h1b h2⟩

/-- Witness for `c3_decode` at the two-element list `["a", "b c"]` (the
second element keeps its interior space: text elements are not
trimmed). -/
theorem c3_witness :
    decode_container_varchar '[' ']' none = none ∧
    decode_container_varchar '[' ']' (csvCell "-") = none ∧
    decode_container_varchar '[' ']' (some "") = none ∧
    decode_container_varchar '[' ']' (some "[]") = none ∧
    decode_container_inet '[' ']' (some "(empty)") = none ∧
    decode_container_varchar '[' ']' (some "(empty)") = some ["(empty)"] ∧
    decode_container_inet '[' ']' (some "[10.0.0.1, 10.0.0.2]") =
      some [some (1, 167772161), some (1, 167772162)] ∧
    decode_container_varchar '[' ']' (some "[x[1],y]") = some ["x1", "y"] ∧
    decode_container_varchar '[' ']' (some ("[" ++ pyJoin "," ["a", "b c"] ++ "]")) =
      some ["a", "b c"] :=
  c3_decode ["a", "b c"] (by decide) (by decide) (by decide)

/-! ## Claim C4 -/

/-- Claim C4 counterexample: a file whose first 15 lines contain all
three header directives, but with the field-type line first, yields a
no-metadata result — the scanner only returns at a `#types` line read
after truthy `#path` and `#fields` lines. -/
theorem c4_counterexample :
    get_log_metadata ["#types\tstring", "#path\tconn", "#fields\tts"] = none ∧
    pyStartswith "#path" "#path\tconn" = true ∧
    pyStartswith "#fields" "#fields\tts" = true ∧
    pyStartswith "#types" "#types\tstring" = true ∧
    (["#types\tstring", "#path\tconn", "#fields\tts"] : List String).length ≤ 15 := by
  decide

/-- Claim C4 (amended): the scanner reads at most 15 lines and returns
HeaderMetadata exactly when it reaches a field-type line at a point where
the type name and field list are already present (so the three directives
must appear with the field-type line last); it stops there, and lines
after the stopping point never change a successful result.  A successful
result always has a nonempty type name, field list and type list.  On
budget exhaustion, early end of stream, a missing directive payload or an
out-of-order header it returns the no-metadata result — never a fatal
failure — and the grouper skips such a file. -/
theorem c4_scanner (n : Nat) (lines junk : List String) (lp : Option String)
    (fs ts : List String) (m : HeaderMetadata)
    (h : metadataLoop n lines lp fs ts = some m)
    (acc : List (String × List (String × SchemaVariant))) (fname : String) :
    metadataLoop n (lines ++ junk) lp fs ts = some m ∧
    (m.1 ≠ "" ∧ m.2.1 ≠ [] ∧ m.2.2 ≠ []) ∧
    collectFile acc (fname, none) = acc ∧
    get_log_metadata
        ["#path\tconn", "#fields\tts\tid.orig_h", "#types\ttime\taddr", "#junk"] =
      some ("conn", ["ts", "id.orig_h"], ["time", "addr"]) :=
  ⟨metadataLoop_append n lines lp fs ts m h,
   metadataLoop_truthy n lines lp fs ts m h, rfl, by decide⟩

/-- Witness for `c4_scanner` on a well-formed three-line header followed
by a junk line. -/
theorem c4_witness :
    metadataLoop 15 (["#path\tconn", "#fields\tts", "#types\ttime"] ++ ["zzz"]) none [] [] =
      some ("conn", ["ts"], ["time"]) ∧
    ((("conn", ["ts"], ["time"]) : HeaderMetadata).1 ≠ "" ∧
      (("conn", ["ts"], ["time"]) : HeaderMetadata).2.1 ≠ [] ∧
      (("conn", ["ts"], ["time"]) : HeaderMetadata).2.2 ≠ []) ∧
    collectFile [] ("skipped.log.gz", none) = [] ∧
    get_log_metadata
        ["#path\tconn", "#fields\tts\tid.orig_h", "#types\ttime\taddr", "#junk"] =
      some ("conn", ["ts", "id.orig_h"], ["time", "addr"]) :=
  c4_scanner 15 ["#path\tconn", "#fields\tts", "#types\ttime"] ["zzz"] none [] []
    ("conn", ["ts"], ["time"]) (by decide) [] "skipped.log.gz"

/-! ## Claim C5 -/

/-- Claim C5: a declared network-address field decodes the null sentinel,
the `(empty)` marker, the empty string and NULL to null, and any text the
lenient INET cast cannot parse also decodes to null for that value only
(`TRY_CAST` never raises, so neither column, row nor run is aborted). -/
theorem c5_inet_decode (s : String) (h : tryCastINET s = none) :
    decode_inet_col (csvCell "-") = none ∧
    decode_inet_col (some "(empty)") = none ∧
    decode_inet_col (some "") = none ∧
    decode_inet_col none = none ∧
    decode_inet_col (csvCell s) = none := by
  refine ⟨by decide, by decide, by decide, rfl, ?_⟩
  unfold csvCell
  by_cases hs : s = "-"
  · rw [if_pos hs]; rfl
  · rw [if_neg hs]
    simp only [decode_inet_col]
    by_cases hsent : s = "-" ∨ s = "(empty)" ∨ s = ""
    · rw [if_pos hsent]
    · rw [if_neg hsent]; exact h

/-- Witness for `c5_inet_decode` at the spec's own malformed text
`not-an-ip`. -/
theorem c5_witness :
    decode_inet_col (csvCell "-") = none ∧
    decode_inet_col (some "(empty)") = none ∧
    decode_inet_col (some "") = none ∧
    decode_inet_col none = none ∧
    decode_inet_col (csvCell "not-an-ip") = none :=
  c5_inet_decode "not-an-ip" (by decide)

/-! ## Claim C6 -/

/-- Claim C6 counterexample: the nested container tokens
`vector[vector[string]]` and `set[set[addr]]` are planned as containers
(with a text element type), not as plain-text columns. -/
theorem c6_counterexample :
    planColumn "vector[vector[string]]" = ColPlan.containerCol '[' ']' "VARCHAR" ∧
    planColumn "vector[vector[string]]" ≠ ColPlan.plainCol "VARCHAR" ∧
    planColumn "set[set[addr]]" =
      ColPlan.containerCol (Char.ofNat 123) (Char.ofNat 125) "VARCHAR" := by
  decide

/-- Claim C6 (amended): a nested container type token is treated as a
container (the `startswith` test sees only the outer wrapper); it is the
extracted element token — itself a container token, absent from the type
map — that falls back to the plain-text category. -/
theorem c6_plan (t : String) (hvec : pyStartswith "vector[" t = true)
    (hmap : type_map t = none) :
    planColumn t =
      ColPlan.containerCol '[' ']'
        ((type_map (String.mk ((t.data.drop 7).dropLast))).getD "VARCHAR") := by
  simp [planColumn, hmap, hvec]

/-- Witness for `c6_plan` at the nested token `vector[vector[string]]`. -/
theorem c6_witness :
    planColumn "vector[vector[string]]" =
      ColPlan.containerCol '[' ']'
        ((type_map (String.mk ((("vector[vector[string]]" : String).data.drop 7).dropLast))).getD
          "VARCHAR") :=
  c6_plan "vector[vector[string]]" (by decide) (by decide)

/-! ## Claim C7 -/

/-- Claim C7 counterexample: list elements are not recursively encoded —
a null element inside a list renders as Python `str(None)`, not as the
null sentinel the recursive rules would give. -/
theorem c7_counterexample :
    formatted_row [Value.vlist [Value.vnull]] = ["[None]"] ∧
    ("[None]" : String) ≠ "[-]" := by
  refine ⟨rfl, by decide⟩

/-- Claim C7 (amended): the streamer emits exactly one tab-joined header
line of the cursor's column names, then one encoded line per row in
cursor order with no re-sorting; each value is encoded independently:
null to `-`, booleans to `T`/`F`, IPv4 addresses to dotted-decimal text,
lists to a bracket-enclosed comma-join whose elements are rendered with
the address rule or the default textual form only (a null or boolean
element renders as `None`/`True`/`False`, not via the scalar rules), and
all other values by their default textual form. -/
theorem c7_stream (a : Nat) (ha : a < 4294967296) (desc : List String)
    (rows : List (List Value)) (s : String) :
    stream_output desc rows = joinTab desc :: rows.map (fun r => joinTab (formatted_row r)) ∧
    formatted_value Value.vnull = "-" ∧
    formatted_value (Value.vbool true) = "T" ∧
    formatted_value (Value.vbool false) = "F" ∧
    formatted_value (Value.vinet 1 a) = ipv4Str a ∧
    formatted_value (Value.vtext s) = s ∧
    formatted_value (Value.vlist [Value.vnull, Value.vbool true, Value.vinet 1 a]) =
      "[" ++ pyJoin "," ["None", "True", ipv4Str a] ++ "]" := by
  refine ⟨stream_output_eq desc rows, rfl, rfl, rfl, formatted_value_inet ha, rfl, ?_⟩
  have hitems : formattedItems [Value.vnull, Value.vbool true, Value.vinet 1 a] =
      some ["None", "True", ipv4Str a] := by
    simp [formattedItems, formattedItem, pyStr, ha]
  simp only [formatted_value, hitems]

/-- Witness for `c7_stream` at a one-row cursor. -/
theorem c7_witness :
    stream_output ["ts"] [[Value.vnull]] =
      joinTab ["ts"] :: [[Value.vnull]].map (fun r => joinTab (formatted_row r)) ∧
    formatted_value Value.vnull = "-" ∧
    formatted_value (Value.vbool true) = "T" ∧
    formatted_value (Value.vbool false) = "F" ∧
    formatted_value (Value.vinet 1 167772161) = ipv4Str 167772161 ∧
    formatted_value (Value.vtext "conn") = "conn" ∧
    formatted_value (Value.vlist [Value.vnull, Value.vbool true, Value.vinet 1 167772161]) =
      "[" ++ pyJoin "," ["None", "True", ipv4Str 167772161] ++ "]" :=
  c7_stream 167772161 (by decide) ["ts"] [[Value.vnull]] "conn"

/-! ## Claim C8 -/

/-- Claim C8 counterexample: the provenance column is the fixed name
`schema_source` with no reserved prefix, so a variant that declares a
field of that very name collides with it. -/
theorem c8_counterexample :
    ¬ (scanCols ⟨["ts", "schema_source"], ["time", "string"], ["x.log.gz"]⟩).Nodup := by
  decide

/-- Claim C8 (amended): every variant's scan emits one extra provenance
column under the fixed name `schema_source`; the name is not collision
proof for every possible declared field set — it stays distinct exactly
when no variant declares a field called `schema_source`. -/
theorem c8_provenance (fields types files : List String)
    (h1 : "schema_source" ∉ fields) (h2 : fields.Nodup) :
    scanCols ⟨fields, types, files⟩ = fields ++ ["schema_source"] ∧
    (scanCols ⟨fields, types, files⟩).Nodup := by
  refine ⟨rfl, ?_⟩
  rw [show scanCols ⟨fields, types, files⟩ = fields ++ ["schema_source"] from rfl,
    List.nodup_append]
  exact ⟨h2, List.nodup_singleton _,
    fun a ha hb => h1 ((List.mem_singleton.mp hb) ▸ ha)⟩

/-- Witness for `c8_provenance` at a collision-free field set. -/
theorem c8_witness :
    scanCols ⟨["ts", "uid"], ["time", "string"], ["x.log.gz"]⟩ =
      ["ts", "uid"] ++ ["schema_source"] ∧
    (scanCols ⟨["ts", "uid"], ["time", "string"], ["x.log.gz"]⟩).Nodup :=
  c8_provenance ["ts", "uid"] ["time", "string"] ["x.log.gz"] (by decide) (by decide)

/-! ## Claim C9 -/

/-- Claim C9: a value that fails to encode (an INET dictionary whose
`ip_type` is unknown, or whose address integer is out of range and makes
the conversion raise) degrades to a best-effort fallback string for that
value only; the surrounding row is encoded value by value and the stream
emits every row, so the failure aborts neither the row nor the stream.  A
failing item inside a list aborts only that list's item loop, falling
back to the plain-text join for that one list value. -/
theorem c9_fallback (t a a2 : Nat) (ht1 : t ≠ 1) (ht2 : t ≠ 2) (hbig : 4294967296 ≤ a2)
    (r1 r2 : List Value) (rows : List (List Value)) (desc : List String) :
    formatted_value (Value.vinet t a) = pyStr (Value.vinet t a) ∧
    formatted_value (Value.vinet 1 a2) = pyStr (Value.vinet 1 a2) ∧
    formatted_row (r1 ++ Value.vinet 1 a2 :: r2) =
      formatted_row r1 ++ pyStr (Value.vinet 1 a2) :: formatted_row r2 ∧
    formattedItems (r1 ++ Value.vinet 1 a2 :: r2) = none ∧
    formatted_value (Value.vlist (r1 ++ Value.vinet 1 a2 :: r2)) =
      "[" ++ pyJoin "," (pyStrList (r1 ++ Value.vinet 1 a2 :: r2)) ++ "]" ∧
    stream_output desc rows = joinTab desc :: rows.map (fun r => joinTab (formatted_row r)) := by
  have hfail : formattedItem (Value.vinet 1 a2) = none := by
    simp only [formattedItem]
    rw [if_neg (by omega)]
  have hval : formatted_value (Value.vinet 1 a2) = pyStr (Value.vinet 1 a2) := by
    simp [formatted_value, show ¬ a2 < 4294967296 by omega]
  refine ⟨by simp [formatted_value, ht1, ht2], hval, ?_,
    formattedItems_of_failed hfail r1 r2, ?_, stream_output_eq desc rows⟩
  · unfold formatted_row
    rw [List.map_append, List.map_cons, hval]
  · simp only [formatted_value, formattedItems_of_failed hfail r1 r2]

/-- Witness for `c9_fallback` at an unknown `ip_type` and an out-of-range
IPv4 integer inside a row and a list. -/
theorem c9_witness :
    formatted_value (Value.vinet 3 5) = pyStr (Value.vinet 3 5) ∧
    formatted_value (Value.vinet 1 4294967296) = pyStr (Value.vinet 1 4294967296) ∧
    formatted_row ([Value.vnull] ++ Value.vinet 1 4294967296 :: [Value.vtext "x"]) =
      formatted_row [Value.vnull] ++
        pyStr (Value.vinet 1 4294967296) :: formatted_row [Value.vtext "x"] ∧
    formattedItems ([Value.vnull] ++ Value.vinet 1 4294967296 :: [Value.vtext "x"]) = none ∧
    formatted_value (Value.vlist ([Value.vnull] ++ Value.vinet 1 4294967296 :: [Value.vtext "x"])) =
      "[" ++ pyJoin ","
        (pyStrList ([Value.vnull] ++ Value.vinet 1 4294967296 :: [Value.vtext "x"])) ++ "]" ∧
    stream_output ["ts"] [[Value.vnull]] =
      joinTab ["ts"] :: [[Value.vnull]].map (fun r => joinTab (formatted_row r)) :=
  c9_fallback 3 5 4294967296 (by decide) (by decide) (by decide)
    [Value.vnull] [Value.vtext "x"] [[Value.vnull]] ["ts"]

/-! ## Claim C10 -/

/-- Claim C10: every variant's registered scan unconditionally skips
exactly the first 8 lines of each source file (`skip=8`) and suppresses
per-row parse errors (`ignore_errors=True`), regardless of where the
header directives end within the 15-line scan budget; concretely, a file
with a 9-line header hands its ninth header line to the row parser as
data, and a file with a 7-line header silently loses its first data
row. -/
theorem c10_skip (v : SchemaVariant) (p : String → Option (List String))
    (lines : List String) :
    (scanSpec v).skip = 8 ∧
    (scanSpec v).ignoreErrors = true ∧
    (scanSpec v).header = false ∧
    (scanSpec v).nullstr = "-" ∧
    (scanSpec v).delim = "\t" ∧
    readRows (scanSpec v) p lines = some ((lines.drop 8).filterMap p) ∧
    (["#separator", "#set_separator", "#empty_field", "#unset_field", "#path", "#open",
        "#fields", "#types", "#ninth-header-line", "1.0\tdata"].drop (scanSpec v).skip =
      ["#ninth-header-line", "1.0\tdata"]) ∧
    (["#separator", "#set_separator", "#empty_field", "#unset_field", "#path",
        "#fields", "#types", "row1", "row2"].drop (scanSpec v).skip = ["row2"]) :=
  ⟨rfl, rfl, rfl, rfl, rfl, rfl, rfl, rfl⟩

end ZeekLogQuery
